import Mathlib

/-!
Verification development for the ImproVe real-time audio analysis pipeline.

The repository's `main.rs` wires a capture callback, an `AudioBuffer`
(sample accumulator), an analysis thread and a display. The buffering,
analysis and scoring modules (`audio_buffer.rs`, `fourier.rs`,
`dissonance.rs`, `notes.rs`, `scores.rs`) are declared by `main.rs` but
their sources are not part of the checked tree, so those components are
modelled here from the specification; the wiring, the capture callback
and the argument validators are embedded directly from `main.rs`.
-/

namespace ImproVe

/-- Modelled from the spec (§3 BufferOptions; `audio_buffer.rs` is not in
the tree): window length in samples plus the two independent
timing-mismatch policy flags. -/
structure BufferOptions where
  resolution : Nat
  discard : Bool
  overlap : Bool
deriving Repr, DecidableEq

/-- Modelled from the spec (§4.1 SampleAccumulator; `audio_buffer.rs` is
not in the tree): the accumulation buffer holds the samples pushed but
not yet returned (`pending`) and remembers the previously returned
window (`prev`) for the overlap policy. Samples are kept abstract in the
element type `α`. -/
structure AudioBuffer (α : Type) where
  opts : BufferOptions
  pending : List α
  prev : List α
deriving Repr, DecidableEq

/-- Modelled from the spec (§4.1 `push`): appends the chunk's samples to
the accumulation buffer; total, no failure path. -/
def AudioBuffer.push {α : Type} (b : AudioBuffer α) (chunk : List α) : AudioBuffer α :=
  { b with pending := b.pending ++ chunk }

/-- Modelled from the spec (§4.1 `nextWindow`): returns `none` when the
caller would block. With at least `resolution` samples pending, the
discard policy first drops all but the most recently arrived
`resolution` samples whenever more than one window's worth of backlog
has accumulated; the window is then the oldest `resolution` pending
samples, which are consumed. With fewer than `resolution` samples
pending, the overlap policy (once a previous window exists) pads the new
window with the trailing portion of the previously returned window;
otherwise the call blocks. -/
def AudioBuffer.nextWindow {α : Type} (b : AudioBuffer α) :
    Option (List α × AudioBuffer α) :=
  let n := b.opts.resolution
  if n ≤ b.pending.length then
    let buf := if b.opts.discard = true ∧ n < b.pending.length then
        b.pending.drop (b.pending.length - n)
      else b.pending
    let w := buf.take n
    some (w, { b with pending := buf.drop n, prev := w })
  else if b.opts.overlap = true ∧ b.prev.length = n then
    let w := b.prev.drop b.pending.length ++ b.pending
    some (w, { b with pending := [], prev := w })
  else
    none

/-- An interaction with the accumulator: either the capture context
pushes a chunk, or the analysis context requests a window. -/
inductive BufOp (α : Type) where
  | push : List α → BufOp α
  | next : BufOp α

/-- Runs a sequence of buffer operations from a given state, collecting
the windows returned in emission order. A `next` that would block
returns no window. -/
def runBuffer {α : Type} (b : AudioBuffer α) : List (BufOp α) → AudioBuffer α × List (List α)
  | [] => (b, [])
  | BufOp.push c :: ops => runBuffer (b.push c) ops
  | BufOp.next :: ops =>
    match b.nextWindow with
    | some (w, b2) =>
      let r := runBuffer b2 ops
      (r.1, w :: r.2)
    | none => runBuffer b ops

/-- A fresh accumulator with the given options (initially no pending
samples and no previous window). -/
def initBuffer {α : Type} (opts : BufferOptions) : AudioBuffer α :=
  { opts := opts, pending := [], prev := [] }

/-- The run used by the segmentation property: push the chunks `cs` in
order into a fresh strict-mode (no discard, no overlap) accumulator of
resolution `n`, then request `N` windows. -/
def strictRun {α : Type} (n : ℕ) (cs : List (List α)) (N : ℕ) :
    AudioBuffer α × List (List α) :=
  runBuffer (initBuffer ⟨n, false, false⟩)
    (cs.map BufOp.push ++ List.replicate N BufOp.next)

/-- Modelled from the spec (§4.3 DissonanceScorer; `dissonance.rs` /
`fourier.rs` are not in the tree): the exponential blending factor
`decay = exp(-ln2 · dt / halfLife)`. At `halfLife = 0` the spec says the
state tracks the instantaneous value exactly (the floating-point formula
degenerates to `exp(-∞) = 0`), so the factor is 0 there. -/
noncomputable def decayFactor (halflife dt : ℝ) : ℝ :=
  if halflife = 0 then 0 else Real.exp (-(Real.log 2) * dt / halflife)

/-- Modelled from the spec (§4.3): the DissonanceState update
`state' = instantaneous · (1 − decay) + state · decay`. -/
noncomputable def updateDissonance (state instantaneous halflife dt : ℝ) : ℝ :=
  instantaneous * (1 - decayFactor halflife dt) + state * decayFactor halflife dt

/-- The sending endpoint of an unbounded mpsc channel
(`std::sync::mpsc::channel` in `main.rs`): an ordered queue plus whether
the receiving end is still alive. -/
structure Channel (α : Type) where
  connected : Bool
  queue : List α
deriving Repr, DecidableEq

/-- `Sender::send`: enqueues the value, an error only when the receiver
has disconnected; an unbounded channel, so sending never waits for the
consumer. -/
def Channel.send {α : Type} (c : Channel α) (x : α) : Except Unit (Channel α) :=
  if c.connected = true then Except.ok { c with queue := c.queue ++ [x] }
  else Except.error ()

/-- `Recorder` from `main.rs` (lines 218–220): the audio callback object
holding the sending end of the sample channel. -/
structure Recorder where
  audio_sender : Channel (List ℚ)

/-- `Recorder::callback` from `main.rs` (lines 225–227): forwards the
delivered chunk over the channel and discards a send error with `.ok()`
(a disconnected consumer leaves the capture context untouched). -/
def Recorder.callback (r : Recorder) (input : List ℚ) : Recorder :=
  match r.audio_sender.send input with
  | Except.ok c => { audio_sender := c }
  | Except.error _ => r

/-- The `resolution` argument validator from `main.rs` (lines 45–49),
applied to the outcome of `s.parse::<u32>()` (`none` = parse failure). -/
def validateResolution : Option ℕ → Except String Unit
  | Option.some v =>
    if 32 ≤ v ∧ v ≤ 1048576 then Except.ok ()
    else Except.error "Argument out of range: (32 .. 1048576)"
  | Option.none => Except.error "Argument is not an unsigned int"

/-- The `zpadding` argument validator from `main.rs` (lines 62–66),
applied to the outcome of `s.parse::<u32>()`. -/
def validateZpadding : Option ℕ → Except String Unit
  | Option.some v =>
    if 1 ≤ v ∧ v ≤ 32 then Except.ok ()
    else Except.error "Argument out of range: (1 .. 32)"
  | Option.none => Except.error "Argument is not an unsigned int"

/-- The `halflife` argument validator from `main.rs` (lines 86–95),
applied to the outcome of `s.parse::<f32>()`; the finite float value is
embedded as a rational. -/
def validateHalflife : Option ℚ → Except String Unit
  | Option.some f =>
    if 0 ≤ f ∧ f ≤ 100 then Except.ok ()
    else Except.error "Argument out of range: (0 .. 100)"
  | Option.none => Except.error "Argument is not a float"

/-- `sdl2::audio::AudioSpecDesired` as filled in by `main.rs`: each field
optional, `None` meaning no preference. -/
structure AudioSpecDesired where
  freq : Option ℤ
  channels : Option ℕ
  samples : Option ℕ
deriving Repr, DecidableEq

/-- The spec requested by `main.rs` (lines 178–182): 88200 Hz, mono, no
preferred chunk size. -/
def desired_spec : AudioSpecDesired :=
  { freq := Option.some 88200, channels := Option.some 1, samples := Option.none }

/-- The negotiated capture spec reported by the driver when the device
is opened; only the sample rate is consumed by the pipeline. -/
structure AudioSpec where
  freq : ℤ
deriving Repr, DecidableEq

/-- `fourier::ScoringOptions` as constructed in `main.rs` (lines
199–203). -/
structure ScoringOptions where
  frequency : ℤ
  zpadding : ℕ
  halflife : ℚ
deriving Repr, DecidableEq

/-- The construction of the scoring options in `main.rs` (lines 192 and
199–203): the frequency is `received_spec.unwrap().freq`, the sample
rate the driver reports when the capture device is opened — not the
requested 88200 Hz of `desired_spec`. -/
def mkScoringOptions (received_spec : AudioSpec) (zpadding : ℕ) (halflife : ℚ) :
    ScoringOptions :=
  { frequency := received_spec.freq, zpadding := zpadding, halflife := halflife }

/-- The 12 equal-tempered pitch classes, anchored at A (the 440 Hz
reference). -/
inductive PitchClass where
  | A
  | ASharp
  | B
  | C
  | CSharp
  | D
  | DSharp
  | E
  | F
  | FSharp
  | G
  | GSharp
deriving Repr, DecidableEq

/-- Modelled from the spec (§4.4 PitchMapper; `notes.rs`/`frequency.rs`
are not in the tree): the real-valued semitone displacement
`12 · log2(f / 440)` from the 440 Hz reference. -/
noncomputable def semitonePos (f : ℝ) : ℝ := 12 * Real.logb 2 (f / 440)

/-- Modelled from the spec (§4.4): the nearest equal-tempered semitone
index `n = round(12 · log2(f / 440))`; the tie at exactly half a
semitone is resolved downward so that the cents offset lies in
(-50, 50] as the NoteEvent data model (§3) requires. -/
noncomputable def nearestSemitone (f : ℝ) : ℤ := ⌈semitonePos f - 1 / 2⌉

/-- Modelled from the spec (§4.4): tuning deviation in cents,
`100 · (12 · log2(f/440) − n)`. -/
noncomputable def centsOffset (f : ℝ) : ℝ := 100 * (semitonePos f - nearestSemitone f)

/-- Maps a semitone index relative to A440 to its pitch class
(12-way cyclic). -/
def pitchClassOfIdx (k : ℤ) : PitchClass :=
  match (k % 12).toNat with
  | 0 => PitchClass.A
  | 1 => PitchClass.ASharp
  | 2 => PitchClass.B
  | 3 => PitchClass.C
  | 4 => PitchClass.CSharp
  | 5 => PitchClass.D
  | 6 => PitchClass.DSharp
  | 7 => PitchClass.E
  | 8 => PitchClass.F
  | 9 => PitchClass.FSharp
  | 10 => PitchClass.G
  | _ => PitchClass.GSharp

/-- Maps a semitone index relative to A440 to its octave number under
the fixed anchor A440 = A4 (the octave number increments at each C). -/
def octaveOfIdx (k : ℤ) : ℤ := 4 + Int.fdiv (k + 9) 12

/-- The pitch class named for a peak frequency. -/
noncomputable def pitchClassOf (f : ℝ) : PitchClass := pitchClassOfIdx (nearestSemitone f)

/-- The octave named for a peak frequency. -/
noncomputable def octaveOf (f : ℝ) : ℤ := octaveOfIdx (nearestSemitone f)

/-- NoteEvent (§3): pitch class, octave and cents offset derived per
peak. -/
structure NoteEvent where
  pitchClass : PitchClass
  octave : ℤ
  centsOffset : ℝ

/-- A frequency-domain peak (§3): frequency and magnitude, embedded as
exact rationals. -/
structure Peak where
  frequency : ℚ
  magnitude : ℚ
deriving Repr, DecidableEq

/-- Modelled from the spec (§4.3, §9; `dissonance.rs` is not in the
tree): the roughness contribution of one unordered pair of peaks, a
function of their frequency separation normalised by a linear
critical-bandwidth approximation `0.021 · fmin + 19`. The spec leaves
the curve's exact shape open (§9) beyond being largest for separations
within a few Hz to a semitone and near zero for distant separations, so
a unimodal curve `s / (1 + s⁴)` of the normalised separation `s` is
used. -/
def pairRoughness (p q : Peak) : ℚ :=
  let s := |p.frequency - q.frequency| /
    (21 / 1000 * min p.frequency q.frequency + 19)
  s / (1 + s ^ 4)

/-- Modelled from the spec (§4.3): the instantaneous dissonance of a
peak set, the sum over all unordered pairs of distinct peaks of the
pair's roughness weighted by the product of the two magnitudes. -/
def instantaneousDissonance : List Peak → ℚ
  | [] => 0
  | p :: ps =>
    (ps.map fun q => pairRoughness p q * p.magnitude * q.magnitude).sum +
      instantaneousDissonance ps

/-- FrameSummary / `Scores` (§3): the immutable unit crossing the
display boundary. -/
structure Scores where
  notes : List NoteEvent
  dissonance : ℝ
  sourceFrameIndex : ℕ

/-- Modelled from the spec (§4.5 FrameAssembler, §5 analysis context;
`fourier.rs`/`scores.rs` are not in the tree): the analysis loop
consumes windows in order; each window is analysed (peak extraction and
note naming abstracted into `analyze`, which yields the window's notes
and instantaneous dissonance), the dissonance state is updated, and one
Scores is emitted per window with a strictly incrementing frame
index. -/
noncomputable def analysisLoop (analyze : List ℚ → List NoteEvent × ℝ)
    (halflife dt : ℝ) : List (List ℚ) → ℕ → ℝ → List Scores
  | [], _, _ => []
  | w :: ws, idx, st =>
    let r := analyze w
    let st2 := updateDissonance st r.2 halflife dt
    { notes := r.1, dissonance := st2, sourceFrameIndex := idx } ::
      analysisLoop analyze halflife dt ws (idx + 1) st2

end ImproVe

namespace ImproVe

/-- Auxiliary: in strict mode (no discard, no overlap), draining `N`
windows from a buffer holding exactly `N·n` samples yields `N` windows
of `n` samples each, concatenating back to the pending samples, and
empties the buffer. -/
theorem strict_drain {α : Type} (n : ℕ) :
    ∀ (N : ℕ) (b : AudioBuffer α), b.opts = ⟨n, false, false⟩ →
      b.pending.length = N * n →
      (runBuffer b (List.replicate N BufOp.next)).2.length = N ∧
      (∀ w ∈ (runBuffer b (List.replicate N BufOp.next)).2, w.length = n) ∧
      (runBuffer b (List.replicate N BufOp.next)).2.flatten = b.pending ∧
      (runBuffer b (List.replicate N BufOp.next)).1.pending = [] := by
  intro N
  induction N with
  | zero =>
    intro b hopts hlen
    rw [Nat.zero_mul] at hlen
    have hnil : b.pending = [] := List.length_eq_zero.mp hlen
    simp only [List.replicate, runBuffer]
    exact ⟨rfl, by simp, by simp [hnil], hnil⟩
  | succ N ih =>
    intro b hopts hlen
    have hge : n ≤ b.pending.length := by
      rw [hlen, Nat.succ_mul]; exact Nat.le_add_left n (N * n)
    have hwin : b.nextWindow =
        some (b.pending.take n,
          { b with pending := b.pending.drop n, prev := b.pending.take n }) := by
      unfold AudioBuffer.nextWindow
      rw [hopts]
      simp [hge]
    have hdroplen : (b.pending.drop n).length = N * n := by
      rw [List.length_drop, hlen, Nat.succ_mul, Nat.add_sub_cancel]
    have ih2 := ih { b with pending := b.pending.drop n, prev := b.pending.take n }
      (by simpa using hopts) hdroplen
    have hrun : runBuffer b (List.replicate (N + 1) BufOp.next) =
        ((runBuffer { b with pending := b.pending.drop n, prev := b.pending.take n }
            (List.replicate N BufOp.next)).1,
         b.pending.take n ::
          (runBuffer { b with pending := b.pending.drop n, prev := b.pending.take n }
            (List.replicate N BufOp.next)).2) := by
      rw [List.replicate_succ]
      simp only [runBuffer, hwin]
    rw [hrun]
    refine ⟨by simpa using ih2.1, ?_, ?_, ih2.2.2.2⟩
    · intro w hw
      rcases List.mem_cons.mp hw with h | h
      · rw [h, List.length_take]
        exact Nat.min_eq_left hge
      · exact ih2.2.1 w h
    · simp only [List.flatten_cons, ih2.2.2.1]
      exact List.take_append_drop n b.pending

/-- Auxiliary: running a concatenation of operation sequences runs them
in order, concatenating the windows emitted. -/
theorem runBuffer_append {α : Type} (ops1 ops2 : List (BufOp α)) :
    ∀ b : AudioBuffer α, runBuffer b (ops1 ++ ops2) =
      ((runBuffer (runBuffer b ops1).1 ops2).1,
       (runBuffer b ops1).2 ++ (runBuffer (runBuffer b ops1).1 ops2).2) := by
  induction ops1 with
  | nil => intro b; simp [runBuffer]
  | cons op ops ih =>
    intro b
    cases op with
    | push c =>
      simp only [List.cons_append, runBuffer]
      exact ih (b.push c)
    | next =>
      simp only [List.cons_append, runBuffer]
      cases h : b.nextWindow with
      | none => exact ih b
      | some r =>
        simp only [runBuffer]
        have h2 := ih r.2
        simp only [List.append_eq] at h2 ⊢
        rw [h2]
        simp

/-- Auxiliary: pushing a sequence of chunks emits no window and extends
the pending samples by their concatenation. -/
theorem runBuffer_pushes {α : Type} (cs : List (List α)) :
    ∀ b : AudioBuffer α, runBuffer b (cs.map BufOp.push) =
      ({ b with pending := b.pending ++ cs.flatten }, []) := by
  induction cs with
  | nil => intro b; simp [runBuffer]
  | cons c cs ih =>
    intro b
    simp only [List.map_cons, runBuffer]
    rw [ih (b.push c)]
    simp [AudioBuffer.push, List.append_assoc]

/-- C1. Segmentation: with discard=false and overlap=false, feeding
`N·resolution` samples split into arbitrarily-sized chunks and then
requesting `N` windows yields exactly `N` windows, each of exactly
`resolution` samples, whose concatenation in emission order is the
original sample sequence, leaving the accumulator empty (no sample
duplicated, none dropped). -/
theorem strict_segmentation {α : Type} (n N : ℕ) (hn : 0 < n)
    (cs : List (List α)) (hlen : cs.flatten.length = N * n) :
    (strictRun n cs N).2.length = N ∧
    (∀ w ∈ (strictRun n cs N).2, w.length = n) ∧
    (strictRun n cs N).2.flatten = cs.flatten ∧
    (strictRun n cs N).1.pending = [] := by
  have hstrict := strict_drain (α := α) n N
    { initBuffer (α := α) ⟨n, false, false⟩ with pending := [] ++ cs.flatten } rfl
    (by simpa using hlen)
  unfold strictRun
  rw [runBuffer_append, runBuffer_pushes]
  simp only [initBuffer] at hstrict ⊢
  refine ⟨by simpa using hstrict.1, ?_, ?_, by simpa using hstrict.2.2.2⟩
  · intro w hw
    exact hstrict.2.1 w (by simpa using hw)
  · have h3 := hstrict.2.2.1
    simp only [List.nil_append] at h3
    simpa using h3

/-- C1 witness: 4 samples in chunks of 3 and 1 through a strict
resolution-2 accumulator yield 2 disjoint windows covering the input. -/
theorem strict_segmentation_witness :
    (strictRun (α := ℕ) 2 [[1, 2, 3], [4]] 2).2.length = 2 ∧
    (strictRun (α := ℕ) 2 [[1, 2, 3], [4]] 2).2.flatten = [[1, 2, 3], [4]].flatten ∧
    (strictRun (α := ℕ) 2 [[1, 2, 3], [4]] 2).1.pending = [] := by
  have h := strict_segmentation 2 2 (by decide) [[1, 2, 3], [4]] (by decide)
  exact ⟨h.1, h.2.2.1, h.2.2.2⟩

/-- C5. Discard policy: with discard=true, whenever enough samples exist
to satisfy a window, `nextWindow` returns exactly the most recently
arrived `resolution` samples, discarding any older backlog, and leaves
the accumulator with no pending backlog at all (in particular never more
than one window's worth). -/
theorem discard_returns_latest {α : Type} (b : AudioBuffer α)
    (hd : b.opts.discard = true)
    (hlen : b.opts.resolution ≤ b.pending.length) :
    b.nextWindow =
      some (b.pending.drop (b.pending.length - b.opts.resolution),
        { b with pending := [],
                 prev := b.pending.drop (b.pending.length - b.opts.resolution) }) := by
  unfold AudioBuffer.nextWindow
  rcases lt_or_eq_of_le hlen with hlt | heq
  · have hdrop : (b.pending.drop (b.pending.length - b.opts.resolution)).length =
        b.opts.resolution := by
      rw [List.length_drop]
      exact Nat.sub_sub_self hlen
    rw [if_pos hlen, if_pos ⟨hd, hlt⟩]
    simp only [List.take_of_length_le (le_of_eq hdrop),
      List.drop_eq_nil_of_le (le_of_eq hdrop)]
  · have hz : b.pending.length - b.opts.resolution = 0 := by
      rw [heq]; exact Nat.sub_self _
    rw [if_pos hlen, if_neg (by rw [← heq]; simp)]
    simp only [hz, List.drop_zero, List.take_of_length_le (le_of_eq heq.symm),
      List.drop_eq_nil_of_le (le_of_eq heq.symm)]

/-- C5 witness: a discard-mode resolution-2 accumulator holding the
backlog [1, 2, 3] returns the latest two samples [2, 3] and keeps no
backlog. -/
theorem discard_returns_latest_witness :
    (AudioBuffer.mk ⟨2, true, false⟩ [1, 2, 3] [] : AudioBuffer ℕ).nextWindow =
      some ([2, 3], AudioBuffer.mk ⟨2, true, false⟩ [] [2, 3]) := by
  exact discard_returns_latest (AudioBuffer.mk ⟨2, true, false⟩ [1, 2, 3] []) rfl
    (by decide)

/-- C6. Overlap policy: with overlap=true, whenever a window is
requested while fewer than `resolution` samples are newly available (and
a previous window exists), the returned window has exactly `resolution`
samples, its leading portion is exactly the trailing samples of the
previously returned window, and its remainder is exactly the newly
available samples. -/
theorem overlap_pads_with_prev {α : Type} (b : AudioBuffer α)
    (ho : b.opts.overlap = true)
    (hprev : b.prev.length = b.opts.resolution)
    (hlt : b.pending.length < b.opts.resolution) :
    b.nextWindow =
      some (b.prev.drop b.pending.length ++ b.pending,
        { b with pending := [],
                 prev := b.prev.drop b.pending.length ++ b.pending }) ∧
    (b.prev.drop b.pending.length ++ b.pending).length = b.opts.resolution ∧
    (b.prev.drop b.pending.length ++ b.pending).take
        (b.opts.resolution - b.pending.length) = b.prev.drop b.pending.length ∧
    (b.prev.drop b.pending.length ++ b.pending).drop
        (b.opts.resolution - b.pending.length) = b.pending := by
  have hdl : (b.prev.drop b.pending.length).length =
      b.opts.resolution - b.pending.length := by
    rw [List.length_drop, hprev]
  refine ⟨?_, ?_, List.take_left' hdl, List.drop_left' hdl⟩
  · unfold AudioBuffer.nextWindow
    rw [if_neg (not_le.mpr hlt), if_pos ⟨ho, hprev⟩]
  · rw [List.length_append, hdl]
    exact Nat.sub_add_cancel (le_of_lt hlt)

/-- C6 witness: an overlap-mode resolution-3 accumulator with previous
window [7, 8, 9] and one new sample [5] returns [8, 9, 5]: the reused
prefix [8, 9] is exactly the previous window's trailing samples. -/
theorem overlap_pads_with_prev_witness :
    (AudioBuffer.mk ⟨3, false, true⟩ [5] [7, 8, 9] : AudioBuffer ℕ).nextWindow =
      some ([8, 9, 5], AudioBuffer.mk ⟨3, false, true⟩ [] [8, 9, 5]) ∧
    ([8, 9, 5] : List ℕ).take 2 = [8, 9] := by
  have h := overlap_pads_with_prev (AudioBuffer.mk ⟨3, false, true⟩ [5] [7, 8, 9] :
    AudioBuffer ℕ) rfl (by decide) (by decide)
  exact ⟨h.1, h.2.2.1⟩

/-- C3. Dissonance smoothing: for positive half-life the blending factor
is `exp(-ln2 · dt / halfLife)` and the update is the stated affine
blend; `halfLife = 0` makes the state track the instantaneous value
exactly; and under constant instantaneous input, after an elapsed time
equal to the half-life the state has moved exactly halfway from its
previous value toward the instantaneous value. -/
theorem dissonance_smoothing (state instantaneous halflife dt : ℝ) :
    (0 < halflife →
      updateDissonance state instantaneous halflife dt =
        instantaneous * (1 - Real.exp (-(Real.log 2) * dt / halflife)) +
          state * Real.exp (-(Real.log 2) * dt / halflife)) ∧
    (halflife = 0 → updateDissonance state instantaneous halflife dt = instantaneous) ∧
    (0 < halflife →
      updateDissonance state instantaneous halflife halflife - state =
        (instantaneous - state) / 2) := by
  refine ⟨?_, ?_, ?_⟩
  · intro h
    unfold updateDissonance decayFactor
    rw [if_neg (ne_of_gt h)]
  · intro h
    subst h
    unfold updateDissonance decayFactor
    simp
  · intro h
    have hd : decayFactor halflife halflife = 1 / 2 := by
      unfold decayFactor
      rw [if_neg (ne_of_gt h), mul_div_assoc, div_self (ne_of_gt h), mul_one,
        Real.exp_neg, Real.exp_log two_pos]
      norm_num
    unfold updateDissonance
    rw [hd]
    ring

/-- C3 witness: at half-life 0 the state tracks the input exactly, and
over one half-life the state closes exactly half the gap. -/
theorem dissonance_smoothing_witness :
    updateDissonance 0 6 0 5 = 6 ∧ updateDissonance 0 6 1 1 - 0 = (6 - 0) / 2 :=
  ⟨(dissonance_smoothing 0 6 0 5).2.1 rfl,
   (dissonance_smoothing 0 6 1 1).2.2 (by norm_num)⟩

/-- C8. The capture callback is a total function for every chunk and
channel state: it enqueues the chunk when the consumer is connected, and
when the consumer has disconnected the send error is discarded and the
capture context is left unchanged — no failure propagates, and the
unbounded channel never makes it wait. -/
theorem recorder_callback_never_fails (r : Recorder) (input : List ℚ) :
    (r.audio_sender.connected = true →
      (r.callback input).audio_sender =
        { connected := true, queue := r.audio_sender.queue ++ [input] }) ∧
    (r.audio_sender.connected = false → r.callback input = r) := by
  constructor
  · intro h
    unfold Recorder.callback Channel.send
    rw [if_pos h]
    simp [← h]
  · intro h
    unfold Recorder.callback Channel.send
    rw [if_neg (by simp [h])]

/-- C8 witness: a connected channel receives the chunk; a disconnected
one leaves the recorder untouched. -/
theorem recorder_callback_never_fails_witness :
    ((Recorder.mk ⟨true, []⟩).callback [1, 2]).audio_sender =
      { connected := true, queue := [] ++ [[1, 2]] } ∧
    (Recorder.mk ⟨false, []⟩).callback [1, 2] = Recorder.mk ⟨false, []⟩ :=
  ⟨(recorder_callback_never_fails (Recorder.mk ⟨true, []⟩) [1, 2]).1 rfl,
   (recorder_callback_never_fails (Recorder.mk ⟨false, []⟩) [1, 2]).2 rfl⟩

/-- C9. Boundary validation: each of the three numeric option validators
accepts exactly the well-formed in-range inputs — resolution in
[32, 1048576], zero-pad factor in [1, 32], half-life in [0, 100] — and
rejects malformed or out-of-range input, so the core never observes an
out-of-range value. -/
theorem validator_ranges :
    (∀ p : Option ℕ, validateResolution p = Except.ok () ↔
      ∃ v, p = Option.some v ∧ 32 ≤ v ∧ v ≤ 1048576) ∧
    (∀ p : Option ℕ, validateZpadding p = Except.ok () ↔
      ∃ v, p = Option.some v ∧ 1 ≤ v ∧ v ≤ 32) ∧
    (∀ p : Option ℚ, validateHalflife p = Except.ok () ↔
      ∃ f, p = Option.some f ∧ 0 ≤ f ∧ f ≤ 100) := by
  refine ⟨?_, ?_, ?_⟩ <;> intro p <;> cases p <;>
    simp [validateResolution, validateZpadding, validateHalflife]

/-- C2. Frame assembly: the analysis loop emits exactly one Scores per
analysis window consumed (1:1), and the sourceFrameIndex values of the
emitted frames form the consecutive sequence idx, idx+1, …: strictly
increasing with no gaps. Because the index is attached per emitted
frame, the sequence stays gap-free even when the discard policy drops
backlog before it ever reaches the analysis loop (settling §3's reading
over §8's). -/
theorem frame_indices_consecutive (analyze : List ℚ → List NoteEvent × ℝ)
    (halflife dt : ℝ) (ws : List (List ℚ)) :
    ∀ (idx : ℕ) (st : ℝ),
      (analysisLoop analyze halflife dt ws idx st).length = ws.length ∧
      (analysisLoop analyze halflife dt ws idx st).map Scores.sourceFrameIndex =
        List.range' idx ws.length := by
  induction ws with
  | nil => intro idx st; simp [analysisLoop]
  | cons w ws ih =>
    intro idx st
    have h := ih (idx + 1) (updateDissonance st (analyze w).2 halflife dt)
    constructor
    · simp only [analysisLoop, List.length_cons, h.1]
    · simp only [analysisLoop, List.map_cons, h.2, List.length_cons, List.range'_succ]

/-- Auxiliary: at an exact equal-tempered frequency `440 · 2^(k/12)` the
semitone displacement is exactly `k`. -/
theorem semitonePos_equal_tempered (k : ℤ) :
    semitonePos (440 * (2 : ℝ) ^ ((k : ℝ) / 12)) = (k : ℝ) := by
  unfold semitonePos
  rw [mul_div_cancel_left₀ _ (by norm_num : (440 : ℝ) ≠ 0),
    Real.logb_rpow (by norm_num) (by norm_num)]
  field_simp

/-- Auxiliary: the nearest semitone at an exact equal-tempered frequency
is the defining index. -/
theorem nearestSemitone_equal_tempered (k : ℤ) :
    nearestSemitone (440 * (2 : ℝ) ^ ((k : ℝ) / 12)) = k := by
  unfold nearestSemitone
  rw [semitonePos_equal_tempered]
  have : (k : ℝ) - 1 / 2 = (-(1 / 2) : ℝ) + k := by ring
  rw [this, Int.ceil_add_int]
  norm_num

/-- Auxiliary: a frequency 3% above the 440 Hz reference sits strictly
between half a semitone and a whole semitone above it. -/
theorem semitonePos_three_percent :
    1 / 2 < semitonePos (440 * (103 / 100)) ∧ semitonePos (440 * (103 / 100)) < 1 := by
  unfold semitonePos
  rw [mul_div_cancel_left₀ _ (by norm_num : (440 : ℝ) ≠ 0)]
  have h24 : ((2 : ℝ) ^ ((1 : ℝ) / 24)) ^ (24 : ℕ) = 2 := by
    rw [← Real.rpow_natCast ((2 : ℝ) ^ ((1 : ℝ) / 24)) 24,
      ← Real.rpow_mul (by norm_num : (0 : ℝ) ≤ 2)]
    norm_num
  have h12 : ((2 : ℝ) ^ ((1 : ℝ) / 12)) ^ (12 : ℕ) = 2 := by
    rw [← Real.rpow_natCast ((2 : ℝ) ^ ((1 : ℝ) / 12)) 12,
      ← Real.rpow_mul (by norm_num : (0 : ℝ) ≤ 2)]
    norm_num
  have hlo : (1 : ℝ) / 24 < Real.logb 2 (103 / 100) := by
    rw [Real.lt_logb_iff_rpow_lt (by norm_num) (by norm_num)]
    refine lt_of_pow_lt_pow_left₀ 24 (by norm_num) ?_
    rw [h24]
    norm_num
  have hhi : Real.logb 2 (103 / 100) < 1 / 12 := by
    rw [Real.logb_lt_iff_lt_rpow (by norm_num) (by norm_num)]
    refine lt_of_pow_lt_pow_left₀ 12 (Real.rpow_nonneg (by norm_num) _) ?_
    rw [h12]
    norm_num
  constructor <;> nlinarith [hlo, hhi]

/-- Auxiliary: 3% above the reference rounds to the next semitone up. -/
theorem nearestSemitone_three_percent : nearestSemitone (440 * (103 / 100)) = 1 := by
  have h3 := semitonePos_three_percent
  unfold nearestSemitone
  rw [Int.ceil_eq_iff]
  constructor
  · push_cast
    linarith [h3.1]
  · push_cast
    linarith [h3.2]

/-- Auxiliary: 3% above the reference lands below its nearest semitone,
so its cents offset is negative. -/
theorem centsOffset_three_percent_neg : centsOffset (440 * (103 / 100)) < 0 := by
  have h3 := semitonePos_three_percent
  unfold centsOffset
  rw [nearestSemitone_three_percent]
  push_cast
  linarith [h3.2]

/-- C4 (amended). Pitch mapping: for every positive peak frequency the
cents offset lies in (-50, 50]; every exact equal-tempered frequency
`440·2^(k/12)` maps to semitone index `k` with cents offset exactly 0,
with 440 Hz named A octave 4; and a frequency 3% sharp of the 440 Hz
reference maps to the pitch class one semitone above (A#, same octave)
with a negative cents offset — 3% exceeds half a semitone, so it does
not keep the reference's pitch class. -/
theorem pitch_mapping (f : ℝ) (hf : 0 < f) :
    (-50 < centsOffset f ∧ centsOffset f ≤ 50) ∧
    (∀ k : ℤ, nearestSemitone (440 * (2 : ℝ) ^ ((k : ℝ) / 12)) = k ∧
      centsOffset (440 * (2 : ℝ) ^ ((k : ℝ) / 12)) = 0) ∧
    (nearestSemitone 440 = 0 ∧ pitchClassOf 440 = PitchClass.A ∧ octaveOf 440 = 4) ∧
    (nearestSemitone (440 * (103 / 100)) = 1 ∧
      pitchClassOf (440 * (103 / 100)) = PitchClass.ASharp ∧
      octaveOf (440 * (103 / 100)) = 4 ∧
      centsOffset (440 * (103 / 100)) < 0) := by
  have h440 : (440 : ℝ) = 440 * (2 : ℝ) ^ (((0 : ℤ) : ℝ) / 12) := by
    norm_num
  have hsemi0 : nearestSemitone 440 = 0 := by
    rw [h440, nearestSemitone_equal_tempered]
  have hsemi3 := nearestSemitone_three_percent
  refine ⟨?_, ?_, ?_, ?_⟩
  · unfold centsOffset nearestSemitone
    constructor
    · have h := Int.ceil_lt_add_one (semitonePos f - 1 / 2)
      set z := (⌈semitonePos f - 1 / 2⌉ : ℝ)
      linarith
    · have h := Int.le_ceil (semitonePos f - 1 / 2)
      set z := (⌈semitonePos f - 1 / 2⌉ : ℝ)
      linarith
  · intro k
    refine ⟨nearestSemitone_equal_tempered k, ?_⟩
    unfold centsOffset
    rw [nearestSemitone_equal_tempered, semitonePos_equal_tempered]
    ring
  · refine ⟨hsemi0, ?_, ?_⟩
    · unfold pitchClassOf
      rw [hsemi0]
      decide
    · unfold octaveOf
      rw [hsemi0]
      decide
  · refine ⟨hsemi3, ?_, ?_, ?_⟩
    · unfold pitchClassOf
      rw [hsemi3]
      decide
    · unfold octaveOf
      rw [hsemi3]
      decide
    · exact centsOffset_three_percent_neg

/-- C4 witness: at the 440 Hz reference the cents offset is inside
(-50, 50]. -/
theorem pitch_mapping_witness :
    -50 < centsOffset 440 ∧ centsOffset 440 ≤ 50 :=
  (pitch_mapping 440 (by norm_num)).1

/-- C4 counterexample to the claim as stated: a frequency 3% sharp of
the 440 Hz reference (A4) does not map to the reference's pitch class A
with a positive cents offset; it maps one semitone up, to A#4, with a
negative cents offset, because 3% exceeds half an equal-tempered
semitone (≈2.93%). -/
theorem pitch_three_percent_crosses_semitone :
    pitchClassOf (440 * (103 / 100)) = PitchClass.ASharp ∧
    pitchClassOf (440 * (103 / 100)) ≠ PitchClass.A ∧
    centsOffset (440 * (103 / 100)) < 0 := by
  have hpc : pitchClassOf (440 * (103 / 100)) = PitchClass.ASharp := by
    unfold pitchClassOf
    rw [nearestSemitone_three_percent]
    decide
  refine ⟨hpc, ?_, centsOffset_three_percent_neg⟩
  rw [hpc]
  decide

/-- C7. Instantaneous dissonance: the empty peak set and every
single-peak set score zero; the pair contribution is symmetric (the sum
truly ranges over unordered pairs) and is the pair's roughness weighted
by the product of the two magnitudes; and two unit-magnitude peaks a few
Hz apart (440 Hz and 445 Hz) score strictly more than ten times what two
unit-magnitude peaks at a 2:1 ratio (440 Hz and 880 Hz) score. -/
theorem instantaneous_dissonance_pairs :
    instantaneousDissonance [] = 0 ∧
    (∀ p : Peak, instantaneousDissonance [p] = 0) ∧
    (∀ p q : Peak, pairRoughness p q = pairRoughness q p) ∧
    (∀ p q : Peak, instantaneousDissonance [p, q] =
      pairRoughness p q * p.magnitude * q.magnitude) ∧
    instantaneousDissonance [⟨440, 1⟩, ⟨445, 1⟩] >
      10 * instantaneousDissonance [⟨440, 1⟩, ⟨880, 1⟩] := by
  refine ⟨rfl, ?_, ?_, ?_, ?_⟩
  · intro p
    simp [instantaneousDissonance]
  · intro p q
    unfold pairRoughness
    rw [abs_sub_comm, min_comm]
  · intro p q
    simp [instantaneousDissonance]
  · norm_num [instantaneousDissonance, pairRoughness, abs]

/-- C10. The sample rate carried by ScoringOptions into the analysis
pipeline is exactly the frequency of the spec the driver reports when
the capture device is opened (`received_spec`), while the requested
`desired_spec` asks for 88200 Hz mono — the negotiated rate, not the
requested one, is what the pipeline uses, and the other two option
fields pass through unchanged. -/
theorem scoring_uses_received_rate (received_spec : AudioSpec) (zpadding : ℕ)
    (halflife : ℚ) :
    (mkScoringOptions received_spec zpadding halflife).frequency = received_spec.freq ∧
    desired_spec.freq = Option.some 88200 ∧
    desired_spec.channels = Option.some 1 ∧
    desired_spec.samples = Option.none ∧
    (mkScoringOptions received_spec zpadding halflife).zpadding = zpadding ∧
    (mkScoringOptions received_spec zpadding halflife).halflife = halflife :=
  ⟨rfl, rfl, rfl, rfl, rfl, rfl⟩

end ImproVe
